import Mathlib

/-!
Verification development for the speaker-resolution pipeline of
`transcript-generation/speaker_resolver.py`.

The Python module is shallowly embedded: JSON values produced by
`json.loads` are modelled by the inductive `JsonDoc`; Python dicts are
ordered association lists (Python dicts preserve insertion order and
have unique keys); file access and network I/O are modelled by passing
the read/parse outcome as an explicit argument; a raised Python
exception is an `Except.error` carrying the exception name.
-/

namespace SpeakerResolver

/-- A parsed JSON value, as returned by Python's `json.loads`.
Numbers are modelled as integers (the rosters use integer `rank`s and
string everything-else; float literals do not occur in the claims
under study). An object is its ordered field list. -/
inductive JsonDoc where
  | jnull
  | jbool (b : Bool)
  | jnum (n : Int)
  | jstr (s : String)
  | jarr (elems : List JsonDoc)
  | jobj (fields : List (String × JsonDoc))

/-- A Python dict with `JsonDoc` values: an insertion-ordered association
list.  Real Python dicts have pairwise-distinct keys; theorems that rely
on that carry an explicit `keysNodup` hypothesis. -/
abbrev Rec := List (String × JsonDoc)

/-- Lookup of the first binding of a key: models `d.get(k)` / `k in d`
on a (key-unique) Python dict. -/
def alookup {α : Type} : List (String × α) → String → Option α
  | [], _ => none
  | (k, v) :: rest, key => if k = key then some v else alookup rest key

/-- Models `k in d`. -/
def rcontains (d : Rec) (key : String) : Bool :=
  (alookup d key).isSome

/-- Python truthiness of a JSON value (`bool(v)`). -/
def jtruthy : JsonDoc → Bool
  | .jnull => false
  | .jbool b => b
  | .jnum n => !(n == 0)
  | .jstr s => !(s == "")
  | .jarr l => !l.isEmpty
  | .jobj f => !f.isEmpty

/-- `v is None` as a boolean test. -/
def isNull : JsonDoc → Bool
  | .jnull => true
  | _ => false

/-- Truthiness of a `d.get(k)` result (`None` when the key is absent). -/
def truthyOpt : Option JsonDoc → Bool
  | none => false
  | some v => jtruthy v

/-- The characters matched by the regex class `\s`, which is also the
set stripped by `str.strip()` (Python's ASCII whitespace; the
rarely-relevant extra Unicode whitespace is outside the modelled
alphabet). -/
def pyWs (c : Char) : Bool :=
  c = ' ' || c = '\t' || c = '\n' || c = '\r' || c = '\x0b' || c = '\x0c'

/-- Python `s.strip()`: remove leading and trailing whitespace. -/
def pyStrip (s : String) : String :=
  String.mk ((s.data.dropWhile pyWs).reverse.dropWhile pyWs).reverse

/-- ASCII lower-casing of one character (Python `str.lower` restricted
to the ASCII alphabet of the rosters). -/
def pyCharLower (c : Char) : Char :=
  if 'A' ≤ c && c ≤ 'Z' then Char.ofNat (c.toNat + 32) else c

/-- ASCII upper-casing of one character. -/
def pyCharUpper (c : Char) : Char :=
  if 'a' ≤ c && c ≤ 'z' then Char.ofNat (c.toNat - 32) else c

/-- Python `s.lower()` (ASCII model). -/
def pyLower (s : String) : String := String.mk (s.data.map pyCharLower)

/-- Python `s.upper()` (ASCII model). -/
def pyUpper (s : String) : String := String.mk (s.data.map pyCharUpper)

/-- Python `s[:n]` on a string: the first `n` characters. -/
def pyTake (s : String) (n : Nat) : String := String.mk (s.data.take n)

mutual

/-- Python `repr` of a parsed JSON value (string escaping inside `repr`
of strings is not modelled; it is never evaluated by the claims). -/
def pyRepr : JsonDoc → String
  | .jnull => "None"
  | .jbool true => "True"
  | .jbool false => "False"
  | .jnum n => toString n
  | .jstr s => "'" ++ s ++ "'"
  | .jarr l => "[" ++ pyReprList l ++ "]"
  | .jobj fs => "\x7b" ++ pyReprFields fs ++ "\x7d"

/-- `repr` of a Python list body: comma-separated element reprs. -/
def pyReprList : List JsonDoc → String
  | [] => ""
  | [x] => pyRepr x
  | x :: y :: xs => pyRepr x ++ ", " ++ pyReprList (y :: xs)

/-- `repr` of a Python dict body: comma-separated `key: value` reprs. -/
def pyReprFields : List (String × JsonDoc) → String
  | [] => ""
  | [(k, v)] => "'" ++ k ++ "': " ++ pyRepr v
  | (k, v) :: p :: ps => "'" ++ k ++ "': " ++ pyRepr v ++ ", " ++ pyReprFields (p :: ps)

end

/-- Python `str(v)` of a parsed JSON value, as interpolated by an
f-string: a string renders as itself, everything else as its `repr`. -/
def pyStr : JsonDoc → String
  | .jstr s => s
  | v => pyRepr v

/-- Models `(d.get("name") or "")` where the value then flows into
`.strip().lower()`: a falsy value (including any falsy non-string)
yields `""`; a truthy string yields itself.  A truthy non-string would
raise `AttributeError` at `.strip()` in Python; theorems about
`merge_known_speakers` exclude that case via `nameOk`. -/
def pyNameOrEmpty : Option JsonDoc → String
  | some (.jstr s) => s
  | _ => ""

/-- `_key_for` from `merge_known_speakers` (speaker_resolver.py:250-255):
`bioguide:<id>` when `d.get("bioguide")` is truthy, else
`name:<lower-cased stripped name>`. -/
def keyFor (d : Rec) : String :=
  if truthyOpt (alookup d "bioguide")
  then "bioguide:" ++ pyStr ((alookup d "bioguide").getD .jnull)
  else "name:" ++ pyLower (pyStrip (pyNameOrEmpty (alookup d "name")))

/-- The inner field-merge loop of `merge_known_speakers`
(speaker_resolver.py:267-270): for each item of `d` in order, add it at
the end of the existing record iff its key is not already present and
its value is not `None`. -/
def mergeFields (existing : Rec) : Rec → Rec
  | [] => existing
  | (k, v) :: rest =>
    if rcontains existing k || isNull v then mergeFields existing rest
    else mergeFields (existing ++ [(k, v)]) rest

/-- Replace the value bound to an existing key, keeping its position:
models assignment `merged[k] = ...` for a present key. -/
def aset {α : Type} : List (String × α) → String → α → List (String × α)
  | [], _, _ => []
  | (k, v) :: rest, key, nv => if k = key then (k, nv) :: rest else (k, v) :: aset rest key nv

/-- One iteration of the record loop of `merge_known_speakers`
(speaker_resolver.py:257-270) on the accumulated key→record dict.
Records without a truthy `name` are skipped; an unseen key inserts a
copy of the record; a seen key merges unseen non-`None` fields into the
existing record.  The `name_keyed` side dict of the source is populated
but never read, so it is not part of the state (its only observable
effect, an `AttributeError` on truthy non-string names, is excluded by
the `nameOk` hypotheses of the theorems below). -/
def mergeStep (st : List (String × Rec)) (d : Rec) : List (String × Rec) :=
  if truthyOpt (alookup d "name") then
    let k := keyFor d
    match alookup st k with
    | none => st ++ [(k, d)]
    | some ex => aset st k (mergeFields ex d)
  else st

/-- `merge_known_speakers(*sources)` (speaker_resolver.py:241-272):
fold all records of all sources through `mergeStep` and return the
accumulated records in insertion order (`list(merged.values())`). -/
def merge_known_speakers (sources : List (List Rec)) : List Rec :=
  (sources.foldl (fun st lst => lst.foldl mergeStep st) []).map Prod.snd

/-! ## Transcript-head parsing (`SPEAKER_LINE_RE`, `parse_utterances`) -/

/-- Consume `\d{2}:\d{2}:\d{2}` from the front of the character list,
returning the matched timestamp and the remaining characters.  `\d` is
modelled as an ASCII digit. -/
def parseTime : List Char → Option (String × List Char)
  | a :: b :: c :: d :: e :: f :: g :: h :: rest =>
    if a.isDigit && b.isDigit && c = ':' && d.isDigit && e.isDigit && f = ':'
        && g.isDigit && h.isDigit then
      some (String.mk [a, b, c, d, e, f, g, h], rest)
    else none
  | _ => none

/-- Consume an exact literal character sequence. -/
def dropLit : List Char → List Char → Option (List Char)
  | [], rest => some rest
  | c :: cs, r :: rs => if r = c then dropLit cs rs else none
  | _ :: _, [] => none

/-- The tail of the regex after the matched label: `:\s*(?P<text>.*)$`.
The `\s*` consumes greedily; `.` cannot cross a newline and `$` accepts
the position at the end of the string or before one final newline, so
the text group is the longest newline-free prefix of what remains and
the match succeeds iff nothing, or exactly one final newline, follows
it. -/
def matchAfterLabel (startT endT : String) (l : Char) (r5 : List Char) :
    Option (String × String × String × String) :=
  let t := r5.dropWhile pyWs
  let txt := t.takeWhile (fun ch => !(ch = '\n'))
  match t.dropWhile (fun ch => !(ch = '\n')) with
  | [] => some (startT, endT, "SPEAKER_" ++ String.mk [l], String.mk txt)
  | [ch] =>
    if ch = '\n' then some (startT, endT, "SPEAKER_" ++ String.mk [l], String.mk txt)
    else none
  | _ => none

/-- The regex from after the whitespace that follows `]`:
`SPEAKER_[A-Z]:` and then the tail. -/
def matchAfterWs (startT endT : String) (r4 : List Char) :
    Option (String × String × String × String) :=
  match dropLit "SPEAKER_".data (r4.dropWhile pyWs) with
  | some (l :: ':' :: r5) =>
    if 'A' ≤ l && l ≤ 'Z' then matchAfterLabel startT endT l r5 else none
  | _ => none

/-- The regex from after the second timestamp: `]\s+` and then the
label and tail. -/
def matchAfterTimes (startT endT : String) (r3 : List Char) :
    Option (String × String × String × String) :=
  match r3 with
  | ']' :: c :: r4 => if pyWs c then matchAfterWs startT endT r4 else none
  | _ => none

/-- `SPEAKER_LINE_RE.match(line)` (speaker_resolver.py:29-31):
`^\[(?P<start>\d\d:\d\d:\d\d)\s*-\s*(?P<end>\d\d:\d\d:\d\d)\]\s+(?P<label>SPEAKER_[A-Z]):\s*(?P<text>.*)$`.
Returns the `start`, `end`, `label` and `text` groups.  Each `\s*`/`\s+`
is followed by a non-whitespace literal, so greedy consumption is
exact; the trailing stages are split into the helper functions above. -/
def matchLine (s : String) : Option (String × String × String × String) :=
  match s.data with
  | '[' :: r0 =>
    match parseTime r0 with
    | none => none
    | some (startT, r1) =>
      match r1.dropWhile pyWs with
      | '-' :: r2 =>
        match parseTime (r2.dropWhile pyWs) with
        | none => none
        | some (endT, r3) => matchAfterTimes startT endT r3
      | _ => none
  | _ => none

/-- The `Utterance` dataclass (speaker_resolver.py:34-43). -/
structure Utterance where
  index : Nat
  start_time : String
  end_time : String
  speaker_label : String
  text : String
  previous_speaker_label : Option String
deriving DecidableEq

/-- The loop body state of `parse_utterances` (speaker_resolver.py:72-103):
accumulated utterances, last matched label, next index. -/
def parseUtterancesAux : List String → List Utterance → Option String → Nat → List Utterance
  | [], acc, _, _ => acc
  | l :: rest, acc, last, idx =>
    match matchLine l with
    | none => parseUtterancesAux rest acc last idx
    | some (startT, endT, lab, txt) =>
      parseUtterancesAux rest (acc ++ [⟨idx, startT, endT, lab, pyStrip txt, last⟩]) (some lab) (idx + 1)

/-- `parse_utterances(lines)` (speaker_resolver.py:72-103): keep only
lines matched by `SPEAKER_LINE_RE`, strip the text group, number the
matches consecutively from 0, and record the previously matched label. -/
def parse_utterances (lines : List String) : List Utterance :=
  parseUtterancesAux lines [] none 0

/-! ## Speaker summarization (`summarize_observed_speakers`) -/

/-- One element of a summary's `examples` list
(speaker_resolver.py:126-134); `startT`/`endT` model the `start`/`end`
keys (`end` is a reserved word in Lean). -/
structure ObservedExample where
  index : Nat
  startT : String
  endT : String
  prev_label : Option String
  text_snippet : String
deriving DecidableEq

/-- One summary value (speaker_resolver.py:135-139). -/
structure SpeakerSummary where
  first_seen : Option String
  num_observed : Nat
  examples : List ObservedExample
deriving DecidableEq

/-- `by_label.setdefault(u.speaker_label, []).append(u)`
(speaker_resolver.py:117-119) on an insertion-ordered dict. -/
def addToGroup (acc : List (String × List Utterance)) (u : Utterance) :
    List (String × List Utterance) :=
  match alookup acc u.speaker_label with
  | some us => aset acc u.speaker_label (us ++ [u])
  | none => acc ++ [(u.speaker_label, [u])]

/-- The example record built for one utterance
(speaker_resolver.py:126-134); the snippet is `h.text[:400]`. -/
def exampleOf (h : Utterance) : ObservedExample :=
  ⟨h.index, h.start_time, h.end_time, h.previous_speaker_label, pyTake h.text 400⟩

/-- `summarize_observed_speakers(utterances, max_utterances_per_speaker)`
(speaker_resolver.py:106-140): group by label in first-seen order, keep
the first `K` utterances of each label as examples, record the label's
first start time and total count. -/
def summarize_observed_speakers (utterances : List Utterance)
    (max_utterances_per_speaker : Nat) : List (String × SpeakerSummary) :=
  let by_label := utterances.foldl addToGroup []
  by_label.map fun p =>
    let head_us := p.2.take max_utterances_per_speaker
    (p.1, ⟨head_us.head?.map (·.start_time), p.2.length, head_us.map exampleOf⟩)

/-! ## Roster loaders

File access and whole-file JSON parsing are I/O; each loader takes the
outcome of that I/O as an explicit argument.  `none` models an absent
(unopenable) file.  A raised exception is `Except.error` with the
Python exception name. -/

/-- One line of a JSONL file, after `raw.strip()` and the attempt
`json.loads(raw)`: empty once stripped, unparsable as JSON, or parsed
to a JSON value. -/
inductive SrcLine where
  | blank
  | noJson
  | jline (j : JsonDoc)

/-- `obj.get("type") in {"witness", "member", "person"}`. -/
def typeIsSpeakerish (v : Option JsonDoc) : Bool :=
  match v with
  | some (.jstr s) => s = "witness" || s = "member" || s = "person"
  | _ => false

/-- The per-line loop of `load_known_speakers_from_jsonl`
(speaker_resolver.py:155-164): blank and unparsable lines are skipped;
a parsed object is kept iff its `type` is witness/member/person and its
`name` is truthy; a parsed non-object raises `AttributeError` at
`obj.get` (only `json.JSONDecodeError` is caught). -/
def loadJsonlLines : List SrcLine → Except String (List Rec)
  | [] => .ok []
  | .blank :: rest => loadJsonlLines rest
  | .noJson :: rest => loadJsonlLines rest
  | .jline j :: rest =>
    match j with
    | .jobj fields =>
      match loadJsonlLines rest with
      | .error e => .error e
      | .ok tail =>
        .ok (if typeIsSpeakerish (alookup fields "type") && truthyOpt (alookup fields "name")
          then fields :: tail else tail)
    | _ => .error "AttributeError"

/-- `load_known_speakers_from_jsonl(path)` (speaker_resolver.py:143-165).
`p.open` is not guarded, so an absent file raises `FileNotFoundError`. -/
def load_known_speakers_from_jsonl (file : Option (List SrcLine)) : Except String (List Rec) :=
  match file with
  | none => .error "FileNotFoundError"
  | some lines => loadJsonlLines lines

/-- `load_known_speakers_from_json(path)` (speaker_resolver.py:168-182).
Neither `p.open` nor `json.load` is guarded: an absent file raises
`FileNotFoundError` and unparsable content raises `JSONDecodeError`.
A parsed array keeps its object entries with truthy `name`; any other
parsed value yields `[]`. -/
def load_known_speakers_from_json (file : Option (Option JsonDoc)) : Except String (List Rec) :=
  match file with
  | none => .error "FileNotFoundError"
  | some none => .error "JSONDecodeError"
  | some (some (.jarr elems)) =>
    .ok (elems.filterMap fun d =>
      match d with
      | .jobj fields => if truthyOpt (alookup fields "name") then some fields else none
      | _ => none)
  | some (some _) => .ok []

/-- `row.setdefault("type", "member"); row.setdefault("committee_id", key);
row.setdefault("chamber", "house")` (speaker_resolver.py:225-227,234-236):
append each defaulted field at the end iff its key is absent. -/
def normalizeMemberRow (row : Rec) (key : String) : Rec :=
  let r1 := if rcontains row "type" then row else row ++ [("type", .jstr "member")]
  let r2 := if rcontains r1 "committee_id" then r1 else r1 ++ [("committee_id", .jstr key)]
  if rcontains r2 "chamber" then r2 else r2 ++ [("chamber", .jstr "house")]

/-- `load_committee_members_from_unitedstates_file(path, committee_id)`
(speaker_resolver.py:185-238).  The `open`/`json.load` pair is wrapped
in `try/except Exception: return []`, so an absent or unparsable file
yields `[]`.  The committee code is looked up after `.strip().upper()`;
a list value keeps its object members with truthy `name`, a dict value
keeps its object role values with truthy `name`, anything else yields
`[]`; each kept row is normalized with the three `setdefault`s.
`data.get` on a parsed non-object raises `AttributeError` (it is
outside the `try`). -/
def load_committee_members_from_unitedstates_file (file : Option (Option JsonDoc))
    (committee_id : String) : Except String (List Rec) :=
  match file with
  | none => .ok []
  | some none => .ok []
  | some (some j) =>
    match j with
    | .jobj fields =>
      let key := pyUpper (pyStrip committee_id)
      match alookup fields key with
      | some (.jarr items) =>
        .ok (items.filterMap fun it =>
          match it with
          | .jobj row =>
            if truthyOpt (alookup row "name") then some (normalizeMemberRow row key) else none
          | _ => none)
      | some (.jobj sub) =>
        .ok (sub.filterMap fun p =>
          match p.2 with
          | .jobj role =>
            if truthyOpt (alookup role "name") then some (normalizeMemberRow role key) else none
          | _ => none)
      | _ => .ok []
    | _ => .error "AttributeError"

/-- First roster record of the spec's merge example. -/
def janeBio : Rec := [("name", .jstr "Jane Doe"), ("bioguide", .jstr "D001")]

/-- Second roster record of the spec's merge example. -/
def janeParty : Rec := [("name", .jstr "Jane Doe"), ("party", .jstr "majority")]

/-- The single merged record the spec's example promises. -/
def janeMergedSpec : Rec :=
  [("name", .jstr "Jane Doe"), ("bioguide", .jstr "D001"), ("party", .jstr "majority")]

/-! ## Prompt construction and the inference call -/

/-- JSON string escaping as performed by `json.dumps` (the common
escapes; `\uXXXX` escapes of other control characters are outside the
modelled alphabet). -/
def jsonEscapeChar (c : Char) : String :=
  if c = '\\' then "\\\\"
  else if c = '"' then "\\\""
  else if c = '\n' then "\\n"
  else if c = '\t' then "\\t"
  else if c = '\r' then "\\r"
  else String.mk [c]

/-- Escape a whole string for JSON output. -/
def jsonEscape (s : String) : String := String.join (s.data.map jsonEscapeChar)

/-- `n` spaces of indentation. -/
def spaces (n : Nat) : String := String.mk (List.replicate n ' ')

mutual

/-- `json.dumps(v, ensure_ascii=False, indent=2)` rendered at an
indentation level. -/
def dumpsAt (ind : Nat) : JsonDoc → String
  | .jnull => "null"
  | .jbool true => "true"
  | .jbool false => "false"
  | .jnum n => toString n
  | .jstr s => "\"" ++ jsonEscape s ++ "\""
  | .jarr [] => "[]"
  | .jarr (x :: xs) =>
    "[\n" ++ dumpsArrItems (ind + 2) (x :: xs) ++ "\n" ++ spaces ind ++ "]"
  | .jobj [] => "\x7b\x7d"
  | .jobj (p :: ps) =>
    "\x7b\n" ++ dumpsObjItems (ind + 2) (p :: ps) ++ "\n" ++ spaces ind ++ "\x7d"

/-- Comma-and-newline separated array items, each indented. -/
def dumpsArrItems (ind : Nat) : List JsonDoc → String
  | [] => ""
  | [x] => spaces ind ++ dumpsAt ind x
  | x :: y :: xs => spaces ind ++ dumpsAt ind x ++ ",\n" ++ dumpsArrItems ind (y :: xs)

/-- Comma-and-newline separated object entries, each indented. -/
def dumpsObjItems (ind : Nat) : List (String × JsonDoc) → String
  | [] => ""
  | [(k, v)] => spaces ind ++ "\"" ++ jsonEscape k ++ "\": " ++ dumpsAt ind v
  | (k, v) :: p :: ps =>
    spaces ind ++ "\"" ++ jsonEscape k ++ "\": " ++ dumpsAt ind v ++ ",\n"
      ++ dumpsObjItems ind (p :: ps)

end

/-- The fixed guidance text of `build_mapping_prompt`
(speaker_resolver.py:284-290). -/
def promptGuidance : String :=
  "You will map generic transcript labels (e.g., SPEAKER_A) to real people from the provided list.\n"
  ++ "Use cues in early utterances: who opens the hearing (Chair), ranking member, witness intros, salutations, and self-identification.\n"
  ++ "Consider adjacency (who speaks before/after) and role clues in text.\n"
  ++ "If uncertain, set the name to \x27Unknown\x27 and include \x27confidence\x27: 0.\n"
  ++ "Return ONLY JSON with the schema: \x7b\"mapping\": \x7blabel: \x7b\"name\": str, \"confidence\": number, \"reason\": str\x7d\x7d\x7d."

/-- `None`-or-string rendered as a JSON value. -/
def jsonOfOptStr : Option String → JsonDoc
  | none => .jnull
  | some s => .jstr s

/-- One summary example as the JSON object serialized into the prompt
payload. -/
def jsonOfExample (e : ObservedExample) : JsonDoc :=
  .jobj [("index", .jnum e.index), ("start", .jstr e.startT), ("end", .jstr e.endT),
    ("prev_label", jsonOfOptStr e.prev_label), ("text_snippet", .jstr e.text_snippet)]

/-- One summary entry as the JSON object serialized into the prompt
payload. -/
def jsonOfSummary (s : SpeakerSummary) : JsonDoc :=
  .jobj [("first_seen", jsonOfOptStr s.first_seen), ("num_observed", .jnum s.num_observed),
    ("examples", .jarr (s.examples.map jsonOfExample))]

/-- `build_mapping_prompt(known_speakers, observed_summary,
transcript_head_text)` (speaker_resolver.py:275-296): guidance, a blank
line, then the serialized payload. -/
def build_mapping_prompt (known_speakers : List Rec)
    (observed_summary : List (String × SpeakerSummary))
    (transcript_head_text : String) : String :=
  let payload : JsonDoc := .jobj
    [("known_speakers", .jarr (known_speakers.map .jobj)),
     ("observed_speakers", .jobj (observed_summary.map fun p => (p.1, jsonOfSummary p.2))),
     ("transcript_head", .jstr transcript_head_text)]
  promptGuidance ++ "\n\n" ++ dumpsAt 0 payload

/-- The request actually issued by `client.responses.create`
(speaker_resolver.py:325-332): model, reasoning effort, and the two
input messages.  Temperature is not part of it. -/
structure InferenceRequest where
  model : String
  reasoningEffort : String
  systemContent : String
  userContent : String
deriving DecidableEq

/-- The numeric type of the `temperature: float` parameter; its value
is never inspected by the code under study. -/
abbrev PyFloat := Rat

/-- The request constructed inside `resolve_speakers_via_llm`
(speaker_resolver.py:320-332) from its arguments: the transcript head
joined by newlines, the prompt, and the fixed system message.  The
`temperature` parameter is received but never inserted anywhere. -/
def llmRequestOf (known_speakers : List Rec)
    (observed_summary : List (String × SpeakerSummary))
    (transcript_head_lines : List String) (model reasoning_effort : String)
    (temperature : PyFloat) : InferenceRequest :=
  let transcript_text := String.intercalate "\n" transcript_head_lines
  let prompt := build_mapping_prompt known_speakers observed_summary transcript_text
  { model := model, reasoningEffort := reasoning_effort,
    systemContent := "You are a precise mapping assistant for congressional hearings.",
    userContent := prompt }

/-- Outcome of the external inference call plus the strict-JSON parse
of its extracted text: the call raised; the text was not JSON; or the
text parsed to a JSON value.  (`_coalesce_response_text` itself never
raises: every access in it is guarded.) -/
inductive CallResult where
  | raised (e : String)
  | returnedNotJson
  | returnedJson (j : JsonDoc)

/-- `resolve_speakers_via_llm(...)` (speaker_resolver.py:304-344), with
the external service passed in as a function of the issued request.
The `try` wraps only `json.loads` and the mapping extraction and
catches only `json.JSONDecodeError`: an exception from the service call
propagates, and a parsed non-object response raises `AttributeError` at
`parsed.get`.  A parsed object yields its `mapping` member when that is
a dict (a falsy one is replaced by `{}`), else the `{}` fallback. -/
def resolve_speakers_via_llm (callService : InferenceRequest → CallResult)
    (known_speakers : List Rec) (observed_summary : List (String × SpeakerSummary))
    (transcript_head_lines : List String) (model reasoning_effort : String)
    (temperature : PyFloat) : Except String Rec :=
  let req := llmRequestOf known_speakers observed_summary transcript_head_lines
    model reasoning_effort temperature
  match callService req with
  | .raised e => .error e
  | .returnedNotJson => .ok []
  | .returnedJson j =>
    match j with
    | .jobj fields =>
      match alookup fields "mapping" with
      | some (.jobj mf) => .ok mf
      | _ => .ok []
    | _ => .error "AttributeError"

/-! ## The orchestrator `resolve_speakers_from_files` -/

/-- `read_transcript_head(transcript_path, max_lines)`
(speaker_resolver.py:46-69): the first `max_lines` lines of the file;
an absent file raises `FileNotFoundError` (no guard). -/
def read_transcript_head (file : Option (List String)) (max_lines : Nat) :
    Except String (List String) :=
  match file with
  | none => .error "FileNotFoundError"
  | some lines => .ok (lines.take max_lines)

/-- The known-speaker list computed by `resolve_speakers_from_files`
(speaker_resolver.py:402-414) and then passed to
`resolve_speakers_via_llm`: the format-chosen loader's result, merged
with the committee members only when the membership path was given and
its loader returned a non-empty list. -/
def resolve_from_files_known (speakersJsonl : Option (List SrcLine))
    (speakersJson : Option (Option JsonDoc)) (speakers_format : String)
    (membership : Option (Option (Option JsonDoc))) (committee_id : String) :
    Except String (List Rec) :=
  match (if pyLower speakers_format = "jsonl"
      then load_known_speakers_from_jsonl speakersJsonl
      else load_known_speakers_from_json speakersJson) with
  | .error e => .error e
  | .ok known =>
    match membership with
    | none => .ok known
    | some f =>
      match load_committee_members_from_unitedstates_file f committee_id with
      | .error e => .error e
      | .ok members =>
        .ok (if members.isEmpty then known else merge_known_speakers [known, members])

/-- `resolve_speakers_from_files(...)` (speaker_resolver.py:373-423):
read the head, parse and summarize it, load (and conditionally merge)
the rosters, and issue the inference call.  `temperature` is left at
its default since the orchestrator does not pass it. -/
def resolve_speakers_from_files (callService : InferenceRequest → CallResult)
    (transcriptFile : Option (List String)) (speakersJsonl : Option (List SrcLine))
    (speakersJson : Option (Option JsonDoc)) (speakers_format : String)
    (membership : Option (Option (Option JsonDoc))) (committee_id : String)
    (max_lines max_utterances_per_speaker : Nat) (model reasoning_effort : String) :
    Except String Rec :=
  match read_transcript_head transcriptFile max_lines with
  | .error e => .error e
  | .ok head_lines =>
    let utterances := parse_utterances head_lines
    let summary := summarize_observed_speakers utterances max_utterances_per_speaker
    match resolve_from_files_known speakersJsonl speakersJson speakers_format
        membership committee_id with
    | .error e => .error e
    | .ok known =>
      resolve_speakers_via_llm callService known summary head_lines model reasoning_effort 0

/-! ## Predicates used by the theorems -/

/-- A parsed object has no well-formed `mapping` member: whatever
`parsed.get("mapping")` yields is absent or not a dict. -/
def noWfMapping (fields : Rec) : Prop :=
  ∀ mf, alookup fields "mapping" ≠ some (.jobj mf)

/-- The entries `load_known_speakers_from_jsonl` keeps from a list of
lines: parsed objects whose `type` is witness/member/person and whose
`name` is truthy. -/
def jsonlKept (lines : List SrcLine) : List Rec :=
  lines.filterMap fun l =>
    match l with
    | .jline (.jobj fields) =>
      if typeIsSpeakerish (alookup fields "type") && truthyOpt (alookup fields "name")
        then some fields else none
    | _ => none

/-- No line of the file parses to a JSON value that is not an object
(such a line would raise `AttributeError` in the loader). -/
def jsonlNoBadJson (lines : List SrcLine) : Prop :=
  ∀ j, SrcLine.jline j ∈ lines → ∃ fields, j = .jobj fields

/-- Is this JSON value a string? -/
def isJStr : JsonDoc → Bool
  | .jstr _ => true
  | _ => false

/-- A record whose `name` value, when truthy, is a string.  On a record
violating this, the Python `merge_known_speakers` raises
`AttributeError` at `.strip()`, so such records are outside the
modelled domain. -/
def nameOk (d : Rec) : Bool :=
  match alookup d "name" with
  | none => true
  | some v => !jtruthy v || isJStr v

/-- A record as an actual Python dict can present it: pairwise-distinct
keys, and (for `merge_known_speakers` to run without raising) a `name`
that is a string whenever it is truthy. -/
def RecWf (d : Rec) : Prop :=
  (d.map Prod.fst).Nodup ∧ nameOk d = true

/-- Invariant of the accumulated `merged` dict of
`merge_known_speakers`: keys are distinct, and every stored record has
a truthy name and is stored under its own identity key. -/
def StInv (st : List (String × Rec)) : Prop :=
  (st.map Prod.fst).Nodup
  ∧ ∀ p ∈ st, keyFor p.2 = p.1 ∧ truthyOpt (alookup p.2 "name") = true

/-- How one `setdefault`-append pass extends a group: an existing group
grows by the new utterances; a missing group appears iff at least one
utterance arrives for it. -/
def groupAppend : Option (List Utterance) → List Utterance → Option (List Utterance)
  | some xs, l => some (xs ++ l)
  | none, [] => none
  | none, l => some l

/-- Loop invariant of `parse_utterances`: indices are positional, the
tracked `last_label` is the last accumulated utterance's label (absent
iff nothing is accumulated yet), the first utterance has no previous
label, and every later one carries its predecessor's label. -/
def AccInv (acc : List Utterance) (last : Option String) : Prop :=
  (∀ i (h : i < acc.length), (acc.get ⟨i, h⟩).index = i)
  ∧ (∀ h : acc ≠ [], last = some (acc.getLast h).speaker_label)
  ∧ (acc = [] → last = none)
  ∧ (∀ h : 0 < acc.length, (acc.get ⟨0, h⟩).previous_speaker_label = none)
  ∧ (∀ i (h : i + 1 < acc.length),
      (acc.get ⟨i + 1, h⟩).previous_speaker_label
        = some ((acc.get ⟨i, Nat.lt_of_succ_lt h⟩).speaker_label))

/-- The part of the loop invariant visible on the final utterance
list. -/
def ParseInv (us : List Utterance) : Prop :=
  (∀ i (h : i < us.length), (us.get ⟨i, h⟩).index = i)
  ∧ (∀ h : 0 < us.length, (us.get ⟨0, h⟩).previous_speaker_label = none)
  ∧ (∀ i (h : i + 1 < us.length),
      (us.get ⟨i + 1, h⟩).previous_speaker_label
        = some ((us.get ⟨i, Nat.lt_of_succ_lt h⟩).speaker_label))

/-- The character shape `\d\d:\d\d:\d\d`. -/
def isTimeChars : List Char → Bool
  | [a, b, c, d, e, f, g, h] =>
    a.isDigit && b.isDigit && c = ':' && d.isDigit && e.isDigit && f = ':'
      && g.isDigit && h.isDigit
  | _ => false

/-- The spec's line grammar `[<start> - <end>] <label>: <text>`
(anchored, `HH:MM:SS` timestamps, whitespace runs as in the regex) with
the label `SPEAKER_` followed by EXACTLY ONE uppercase letter — the
grammar the code's regex `SPEAKER_[A-Z]` actually implements. -/
def MatchesGrammarOneLetter (s : String) : Prop :=
  ∃ (t1 t2 w1 w2 w3 w4 txt : List Char) (lab : Char),
    s.data = '[' :: (t1 ++ w1 ++ '-' :: (w2 ++ t2 ++ ']' :: (w3 ++ "SPEAKER_".data
      ++ lab :: ':' :: (w4 ++ txt))))
    ∧ isTimeChars t1 = true ∧ isTimeChars t2 = true
    ∧ (∀ c ∈ w1, pyWs c = true) ∧ (∀ c ∈ w2, pyWs c = true)
    ∧ (∀ c ∈ w3, pyWs c = true) ∧ w3 ≠ []
    ∧ ('A' ≤ lab ∧ lab ≤ 'Z')
    ∧ (∀ c ∈ w4, pyWs c = true)

/-- The spec's line grammar as claim C4 words it: the label is
`SPEAKER_` followed by ONE OR MORE uppercase letters. -/
def MatchesGrammarSpec (s : String) : Prop :=
  ∃ (t1 t2 w1 w2 w3 w4 txt labs : List Char),
    s.data = '[' :: (t1 ++ w1 ++ '-' :: (w2 ++ t2 ++ ']' :: (w3 ++ "SPEAKER_".data
      ++ labs ++ ':' :: (w4 ++ txt))))
    ∧ isTimeChars t1 = true ∧ isTimeChars t2 = true
    ∧ (∀ c ∈ w1, pyWs c = true) ∧ (∀ c ∈ w2, pyWs c = true)
    ∧ (∀ c ∈ w3, pyWs c = true) ∧ w3 ≠ []
    ∧ labs ≠ [] ∧ (∀ c ∈ labs, 'A' ≤ c ∧ c ≤ 'Z')
    ∧ (∀ c ∈ w4, pyWs c = true)

/-! ## Association-list lemmas -/

theorem alookup_cons {α : Type} (a : String) (w : α) (rest : List (String × α)) (k : String) :
    alookup ((a, w) :: rest) k = if a = k then some w else alookup rest k := rfl

theorem alookup_append_left {α : Type} {m1 : List (String × α)} (m2 : List (String × α))
    {k : String} {v : α} (h : alookup m1 k = some v) : alookup (m1 ++ m2) k = some v := by
  induction m1 with
  | nil => simp [alookup] at h
  | cons p rest ih =>
    obtain ⟨a, w⟩ := p
    rw [List.cons_append, alookup_cons] at *
    by_cases hk : a = k
    · simpa [hk] using h
    · rw [if_neg hk] at h ⊢
      exact ih h

theorem alookup_append_right {α : Type} {m1 : List (String × α)} (m2 : List (String × α))
    {k : String} (h : alookup m1 k = none) : alookup (m1 ++ m2) k = alookup m2 k := by
  induction m1 with
  | nil => simp
  | cons p rest ih =>
    obtain ⟨a, w⟩ := p
    rw [alookup_cons] at h
    rw [List.cons_append, alookup_cons]
    by_cases hk : a = k
    · simp [hk] at h
    · rw [if_neg hk] at h ⊢
      exact ih h

theorem alookup_eq_none {α : Type} {m : List (String × α)} {k : String} :
    alookup m k = none ↔ k ∉ m.map Prod.fst := by
  induction m with
  | nil => simp [alookup]
  | cons p rest ih =>
    obtain ⟨a, w⟩ := p
    rw [alookup_cons]
    by_cases hk : a = k
    · simp [hk]
    · simp only [if_neg hk, List.map_cons, List.mem_cons, ih]
      constructor
      · intro h hc
        rcases hc with hc | hc
        · exact hk hc.symm
        · exact h hc
      · intro h hc
        exact h (Or.inr hc)

theorem alookup_aset_self {α : Type} (m : List (String × α)) (k : String) (v : α) :
    alookup (aset m k v) k = (alookup m k).map (fun _ => v) := by
  induction m with
  | nil => simp [aset, alookup]
  | cons p rest ih =>
    obtain ⟨a, w⟩ := p
    rw [aset]
    by_cases hk : a = k
    · rw [if_pos hk, alookup_cons, alookup_cons, if_pos hk, if_pos hk]
      rfl
    · rw [if_neg hk, alookup_cons, alookup_cons, if_neg hk, if_neg hk]
      exact ih

theorem alookup_aset_ne {α : Type} (m : List (String × α)) (k k2 : String) (v : α)
    (h : k2 ≠ k) : alookup (aset m k v) k2 = alookup m k2 := by
  induction m with
  | nil => simp [aset, alookup]
  | cons p rest ih =>
    obtain ⟨a, w⟩ := p
    rw [aset]
    by_cases hk : a = k
    · have hne : ¬ a = k2 := fun hc => h (hc ▸ hk)
      rw [if_pos hk, alookup_cons, alookup_cons, if_neg (hk ▸ fun hc => h (hc ▸ rfl)), if_neg hne]
    · rw [if_neg hk, alookup_cons, alookup_cons]
      by_cases hk2 : a = k2
      · rw [if_pos hk2, if_pos hk2]
      · rw [if_neg hk2, if_neg hk2]
        exact ih

theorem map_fst_aset {α : Type} (m : List (String × α)) (k : String) (v : α) :
    (aset m k v).map Prod.fst = m.map Prod.fst := by
  induction m with
  | nil => simp [aset]
  | cons p rest ih =>
    obtain ⟨a, w⟩ := p
    rw [aset]
    by_cases hk : a = k
    · rw [if_pos hk, List.map_cons, List.map_cons, hk]
    · rw [if_neg hk, List.map_cons, List.map_cons, ih]

theorem mem_aset {α : Type} {m : List (String × α)} {k : String} {v : α} {p : String × α}
    (h : p ∈ aset m k v) : p ∈ m ∨ p = (k, v) := by
  induction m with
  | nil => simp [aset] at h
  | cons q rest ih =>
    obtain ⟨a, w⟩ := q
    rw [aset] at h
    by_cases hk : a = k
    · rw [if_pos hk] at h
      rcases List.mem_cons.mp h with h1 | h1
      · exact Or.inr (by simp [h1, hk])
      · exact Or.inl (List.mem_cons_of_mem _ h1)
    · rw [if_neg hk] at h
      rcases List.mem_cons.mp h with h1 | h1
      · exact Or.inl (h1 ▸ List.mem_cons_self _ _)
      · rcases ih h1 with h2 | h2
        · exact Or.inl (List.mem_cons_of_mem _ h2)
        · exact Or.inr h2

theorem alookup_mem {α : Type} {m : List (String × α)} {k : String} {v : α}
    (h : alookup m k = some v) : (k, v) ∈ m := by
  induction m with
  | nil => simp [alookup] at h
  | cons p rest ih =>
    obtain ⟨a, w⟩ := p
    rw [alookup_cons] at h
    by_cases hk : a = k
    · rw [if_pos hk] at h
      cases h
      exact hk ▸ List.mem_cons_self _ _
    · rw [if_neg hk] at h
      exact List.mem_cons_of_mem _ (ih h)

theorem nodup_mem_alookup {α : Type} {m : List (String × α)} {k : String} {v : α}
    (hnd : (m.map Prod.fst).Nodup) (h : (k, v) ∈ m) : alookup m k = some v := by
  induction m with
  | nil => simp at h
  | cons p rest ih =>
    obtain ⟨a, w⟩ := p
    simp only [List.map_cons, List.nodup_cons] at hnd
    rw [alookup_cons]
    rcases List.mem_cons.mp h with h1 | h1
    · injection h1 with hk hv
      rw [if_pos hk.symm, hv]
    · have hk : ¬ a = k := by
        intro he
        exact hnd.1 (he ▸ List.mem_map_of_mem Prod.fst h1)
      rw [if_neg hk]
      exact ih hnd.2 h1

/-! ## Sanity checks against the spec's worked examples -/

/-- The spec's example line parses to the advertised single utterance. -/
theorem example_line_parses :
    parse_utterances ["[00:01:02 - 00:01:10] SPEAKER_A: Thank you, Chairman."]
      = [⟨0, "00:01:02", "00:01:10", "SPEAKER_A", "Thank you, Chairman.", none⟩] := by
  rfl

/-- A line with no bracket/label is skipped without error. -/
theorem example_nonmatching_line_skipped :
    parse_utterances ["Chairman opens the hearing."] = [] := by
  rfl

/-! ## C1 -/

/-- C1: the spec's example promises that
`[{"name":"Jane Doe","bioguide":"D001"}]` then
`[{"name":"Jane Doe","party":"majority"}]` merge to the single record
`{"name":"Jane Doe","bioguide":"D001","party":"majority"}`.  The code
instead returns the two records unmerged: the second record's identity
key is `name:jane doe`, which is never linked back to `bioguide:D001`
because the `name_keyed` index is written but never consulted. -/
theorem merge_example_not_coalesced :
    merge_known_speakers [[janeBio], [janeParty]] = [janeBio, janeParty]
    ∧ merge_known_speakers [[janeBio], [janeParty]] ≠ [janeMergedSpec] := by
  have h : merge_known_speakers [[janeBio], [janeParty]] = [janeBio, janeParty] := rfl
  refine ⟨h, fun hc => ?_⟩
  have hlen := congrArg List.length (h.symm.trans hc)
  simp at hlen

/-! ## C10 -/

/-- C10: two runs of `resolve_speakers_via_llm` on identical arguments
except for the `temperature` value construct the same inference request
(model, effort, system message, prompt) and return the same result: the
temperature parameter is accepted but never used. -/
theorem temperature_never_used (callService : InferenceRequest → CallResult)
    (ks : List Rec) (os : List (String × SpeakerSummary)) (hl : List String)
    (m eff : String) (t1 t2 : PyFloat) :
    llmRequestOf ks os hl m eff t1 = llmRequestOf ks os hl m eff t2
    ∧ resolve_speakers_via_llm callService ks os hl m eff t1
        = resolve_speakers_via_llm callService ks os hl m eff t2 :=
  ⟨rfl, rfl⟩

/-! ## C3 -/

/-- C3 counterexample: when the inference call raises,
`resolve_speakers_via_llm` does not return an empty mapping — the
exception propagates (`client.responses.create` is outside the `try`,
which guards only `json.loads`). -/
theorem resolver_call_raise_propagates :
    resolve_speakers_via_llm (fun _ => .raised "APIConnectionError") [] [] [] "gpt-5" "medium" 0
      = .error "APIConnectionError"
    ∧ resolve_speakers_via_llm (fun _ => .raised "APIConnectionError") [] [] [] "gpt-5" "medium" 0
      ≠ .ok [] :=
  ⟨rfl, fun h => Except.noConfusion h⟩

/-- C3 amended: the resolver returns the empty mapping when the call
returns non-JSON text or a JSON object lacking a well-formed `mapping`
dict, and returns that dict when present; but an exception raised by
the inference call itself propagates, as does the `AttributeError`
produced by a JSON response that is not an object. -/
theorem resolver_failure_classification
    (callService : InferenceRequest → CallResult) (ks : List Rec)
    (os : List (String × SpeakerSummary)) (hl : List String) (m eff : String) (t : PyFloat) :
    (∀ e, callService (llmRequestOf ks os hl m eff t) = .raised e →
        resolve_speakers_via_llm callService ks os hl m eff t = .error e)
    ∧ (callService (llmRequestOf ks os hl m eff t) = .returnedNotJson →
        resolve_speakers_via_llm callService ks os hl m eff t = .ok [])
    ∧ (∀ fields, callService (llmRequestOf ks os hl m eff t) = .returnedJson (.jobj fields) →
        noWfMapping fields →
        resolve_speakers_via_llm callService ks os hl m eff t = .ok [])
    ∧ (∀ fields mf, callService (llmRequestOf ks os hl m eff t) = .returnedJson (.jobj fields) →
        alookup fields "mapping" = some (.jobj mf) →
        resolve_speakers_via_llm callService ks os hl m eff t = .ok mf)
    ∧ (∀ j, callService (llmRequestOf ks os hl m eff t) = .returnedJson j →
        (∀ fields, j ≠ .jobj fields) →
        resolve_speakers_via_llm callService ks os hl m eff t = .error "AttributeError") := by
  refine ⟨?_, ?_, ?_, ?_, ?_⟩
  · intro e h
    simp [resolve_speakers_via_llm, h]
  · intro h
    simp [resolve_speakers_via_llm, h]
  · intro fields h hno
    cases hm : alookup fields "mapping" with
    | none => simp [resolve_speakers_via_llm, h, hm]
    | some v =>
      cases v with
      | jobj mf => exact absurd hm (hno mf)
      | _ => simp [resolve_speakers_via_llm, h, hm]
  · intro fields mf h hm
    simp [resolve_speakers_via_llm, h, hm]
  · intro j h hno
    cases j with
    | jobj fields => exact absurd rfl (hno fields)
    | _ => simp [resolve_speakers_via_llm, h]

/-- Witness for `resolver_failure_classification` at concrete inputs:
a non-JSON response yields the empty mapping, and a response carrying a
mapping dict yields exactly that dict. -/
theorem resolver_failure_classification_witness :
    resolve_speakers_via_llm (fun _ => .returnedNotJson) [] [] [] "gpt-5" "medium" 0 = .ok []
    ∧ resolve_speakers_via_llm
        (fun _ => .returnedJson (.jobj [("mapping", .jobj [("SPEAKER_A", .jstr "Jane Doe")])]))
        [] [] [] "gpt-5" "medium" 0
      = .ok [("SPEAKER_A", .jstr "Jane Doe")] :=
  ⟨(resolver_failure_classification (fun _ => .returnedNotJson) [] [] [] "gpt-5" "medium" 0).2.1
      rfl,
   (resolver_failure_classification
      (fun _ => .returnedJson (.jobj [("mapping", .jobj [("SPEAKER_A", .jstr "Jane Doe")])]))
      [] [] [] "gpt-5" "medium" 0).2.2.2.1
      [("mapping", .jobj [("SPEAKER_A", .jstr "Jane Doe")])]
      [("SPEAKER_A", .jstr "Jane Doe")] rfl rfl⟩

/-! ## C2 -/

theorem loadJsonlLines_eq {lines : List SrcLine} (h : jsonlNoBadJson lines) :
    loadJsonlLines lines = .ok (jsonlKept lines) := by
  induction lines with
  | nil => rfl
  | cons l rest ih =>
    have hrest : jsonlNoBadJson rest := fun j hj => h j (List.mem_cons_of_mem _ hj)
    cases l with
    | blank => simpa [loadJsonlLines, jsonlKept] using ih hrest
    | noJson => simpa [loadJsonlLines, jsonlKept] using ih hrest
    | jline j =>
      obtain ⟨fields, rfl⟩ := h j (List.mem_cons_self _ _)
      rw [loadJsonlLines, ih hrest]
      simp [jsonlKept]
      split <;> simp [List.filterMap_cons, *, jsonlKept]

/-- C2 counterexample: `load_known_speakers_from_jsonl` raises
`FileNotFoundError` on an absent file instead of returning an empty
list (`p.open` is unguarded), and `load_known_speakers_from_json`
raises on an absent file and on content that fails to parse. -/
theorem jsonl_loader_raises_on_absent_file :
    load_known_speakers_from_jsonl none = .error "FileNotFoundError"
    ∧ load_known_speakers_from_jsonl none ≠ .ok []
    ∧ load_known_speakers_from_json none ≠ .ok []
    ∧ load_known_speakers_from_json (some none) ≠ .ok [] :=
  ⟨rfl, fun h => Except.noConfusion h, fun h => Except.noConfusion h,
    fun h => Except.noConfusion h⟩

/-- C2 amended: only the committee loader returns an empty list when
its file is absent or unparsable; the JSONL and JSON roster loaders
raise `FileNotFoundError` on an absent file, and the JSON loader raises
`JSONDecodeError` on unparsable content.  Within a readable file,
malformed individual entries are skipped: the JSONL loader keeps
exactly the parsed objects with an eligible `type` and truthy `name`
(given no line parses to a non-object), and the JSON loader keeps
exactly the object entries of a parsed array that have a truthy
`name`. -/
theorem loaders_error_behavior (cid : String) (lines : List SrcLine) (elems : List JsonDoc) :
    load_committee_members_from_unitedstates_file none cid = .ok []
    ∧ load_committee_members_from_unitedstates_file (some none) cid = .ok []
    ∧ load_known_speakers_from_jsonl none = .error "FileNotFoundError"
    ∧ load_known_speakers_from_json none = .error "FileNotFoundError"
    ∧ load_known_speakers_from_json (some none) = .error "JSONDecodeError"
    ∧ (jsonlNoBadJson lines →
        load_known_speakers_from_jsonl (some lines) = .ok (jsonlKept lines))
    ∧ load_known_speakers_from_json (some (some (.jarr elems)))
        = .ok (elems.filterMap fun d =>
            match d with
            | .jobj fields => if truthyOpt (alookup fields "name") then some fields else none
            | _ => none) := by
  refine ⟨rfl, rfl, rfl, rfl, rfl, ?_, rfl⟩
  intro h
  exact loadJsonlLines_eq h

/-- Witness for `loaders_error_behavior`: a file mixing a metadata
line, a blank line, an unparsable line, a nameless entry and two good
entries loads to exactly the two good entries. -/
theorem loaders_error_behavior_witness :
    load_known_speakers_from_jsonl (some
      [.jline (.jobj [("type", .jstr "metadata"), ("committee", .jstr "HSAG")]),
       .blank,
       .noJson,
       .jline (.jobj [("type", .jstr "witness"), ("name", .jstr "")]),
       .jline (.jobj [("type", .jstr "witness"), ("name", .jstr "Jane Doe")]),
       .jline (.jobj [("type", .jstr "member"), ("name", .jstr "Rep. X")])])
      = .ok [[("type", .jstr "witness"), ("name", .jstr "Jane Doe")],
             [("type", .jstr "member"), ("name", .jstr "Rep. X")]] := by
  have h := (loaders_error_behavior "HSAG"
    [.jline (.jobj [("type", .jstr "metadata"), ("committee", .jstr "HSAG")]),
     .blank,
     .noJson,
     .jline (.jobj [("type", .jstr "witness"), ("name", .jstr "")]),
     .jline (.jobj [("type", .jstr "witness"), ("name", .jstr "Jane Doe")]),
     .jline (.jobj [("type", .jstr "member"), ("name", .jstr "Rep. X")])]
    []).2.2.2.2.2.1
  refine (h ?_).trans (by rfl)
  intro j hj
  simp only [List.mem_cons] at hj
  rcases hj with h1 | h1 | h1 | h1 | h1 | h1 | h1 <;> first
    | (injection h1 with h2; exact ⟨_, h2⟩)
    | (exact absurd h1 (by intro hc; cases hc))

/-! ## C9 -/

/-- C9: the orchestrator deduplicates the known-speakers list only when
the committee source yields at least one member.  With no membership
path, or with a membership file whose loader returns an empty list, the
loaded list is passed through unchanged (so duplicates inside it are
preserved); with a non-empty member list, the merged (deduplicated)
list is passed instead.  The last conjunct shows the pass-through all
the way into the inference call of `resolve_speakers_from_files`. -/
theorem known_dedup_only_with_members
    (sjl : Option (List SrcLine)) (sj : Option (Option JsonDoc)) (fmt : String)
    (cid : String) (known : List Rec)
    (hload : (if pyLower fmt = "jsonl" then load_known_speakers_from_jsonl sjl
        else load_known_speakers_from_json sj) = .ok known) :
    (resolve_from_files_known sjl sj fmt none cid = .ok known)
    ∧ (∀ f, load_committee_members_from_unitedstates_file f cid = .ok [] →
        resolve_from_files_known sjl sj fmt (some f) cid = .ok known)
    ∧ (∀ f ms, load_committee_members_from_unitedstates_file f cid = .ok ms → ms ≠ [] →
        resolve_from_files_known sjl sj fmt (some f) cid
          = .ok (merge_known_speakers [known, ms]))
    ∧ (∀ (callService : InferenceRequest → CallResult) (tlines : List String)
        (maxL maxU : Nat) (m eff : String),
        resolve_speakers_from_files callService (some tlines) sjl sj fmt none cid
            maxL maxU m eff
          = resolve_speakers_via_llm callService known
              (summarize_observed_speakers (parse_utterances (tlines.take maxL)) maxU)
              (tlines.take maxL) m eff 0) := by
  refine ⟨?_, ?_, ?_, ?_⟩
  · simp [resolve_from_files_known, hload]
  · intro f h
    simp [resolve_from_files_known, hload, h]
  · intro f ms h hne
    cases ms with
    | nil => exact absurd rfl hne
    | cons x xs => simp [resolve_from_files_known, hload, h, List.isEmpty]
  · intro callService tlines maxL maxU m eff
    rw [resolve_speakers_from_files, read_transcript_head]
    have h1 : resolve_from_files_known sjl sj fmt none cid = .ok known := by
      simp [resolve_from_files_known, hload]
    rw [h1]

/-- Witness for `known_dedup_only_with_members`: a JSONL source holding
the same witness twice is passed through with the duplicate intact when
there is no membership source, and is deduplicated (one merged record)
when a member list is present. -/
theorem known_dedup_only_with_members_witness :
    resolve_from_files_known
        (some [.jline (.jobj [("type", .jstr "witness"), ("name", .jstr "Jane Doe")]),
               .jline (.jobj [("type", .jstr "witness"), ("name", .jstr "Jane Doe")])])
        none "jsonl" none "HSAG"
      = .ok [[("type", .jstr "witness"), ("name", .jstr "Jane Doe")],
             [("type", .jstr "witness"), ("name", .jstr "Jane Doe")]]
    ∧ resolve_from_files_known
        (some [.jline (.jobj [("type", .jstr "witness"), ("name", .jstr "Jane Doe")]),
               .jline (.jobj [("type", .jstr "witness"), ("name", .jstr "Jane Doe")])])
        none "jsonl"
        (some (some (some (.jobj [("HSAG", .jarr [.jobj [("name", .jstr "Rep. X")]])]))))
        "HSAG"
      = .ok [[("type", .jstr "witness"), ("name", .jstr "Jane Doe")],
             [("name", .jstr "Rep. X"), ("type", .jstr "member"),
              ("committee_id", .jstr "HSAG"), ("chamber", .jstr "house")]] := by
  constructor
  · exact (known_dedup_only_with_members
      (some [.jline (.jobj [("type", .jstr "witness"), ("name", .jstr "Jane Doe")]),
             .jline (.jobj [("type", .jstr "witness"), ("name", .jstr "Jane Doe")])])
      none "jsonl" "HSAG"
      [[("type", .jstr "witness"), ("name", .jstr "Jane Doe")],
       [("type", .jstr "witness"), ("name", .jstr "Jane Doe")]] (by rfl)).1
  · exact ((known_dedup_only_with_members
      (some [.jline (.jobj [("type", .jstr "witness"), ("name", .jstr "Jane Doe")]),
             .jline (.jobj [("type", .jstr "witness"), ("name", .jstr "Jane Doe")])])
      none "jsonl" "HSAG"
      [[("type", .jstr "witness"), ("name", .jstr "Jane Doe")],
       [("type", .jstr "witness"), ("name", .jstr "Jane Doe")]] (by rfl)).2.2.1
      (some (some (.jobj [("HSAG", .jarr [.jobj [("name", .jstr "Rep. X")]])])))
      [[("name", .jstr "Rep. X"), ("type", .jstr "member"),
        ("committee_id", .jstr "HSAG"), ("chamber", .jstr "house")]]
      (by rfl) (by simp)).trans (by rfl)

/-! ## C6 -/

theorem accInv_snoc {acc : List Utterance} {last : Option String} (hInv : AccInv acc last)
    (st en lab txt : String) :
    AccInv (acc ++ [⟨acc.length, st, en, lab, txt, last⟩]) (some lab) := by
  obtain ⟨h1, h2, h3, h4, h5⟩ := hInv
  simp only [AccInv, List.get_eq_getElem] at *
  refine ⟨?_, ?_, ?_, ?_, ?_⟩
  · intro i h
    rcases Nat.lt_or_ge i acc.length with hi | hi
    · rw [List.getElem_append_left hi]
      exact h1 i hi
    · have hi2 : i = acc.length := by
        simp only [List.length_append, List.length_singleton] at h
        omega
      subst hi2
      rw [List.getElem_concat_length acc _ _ rfl]
  · intro h
    rw [List.getLast_concat]
  · intro h
    exact absurd h (by simp)
  · intro h
    cases acc with
    | nil => simp [h3 rfl]
    | cons a rest =>
      rw [List.getElem_append_left (by simp : 0 < (a :: rest).length)]
      exact h4 (by simp)
  · intro i h
    have hlen : (acc ++ [(⟨acc.length, st, en, lab, txt, last⟩ : Utterance)]).length
        = acc.length + 1 := by simp
    rcases Nat.lt_or_ge (i + 1) acc.length with hi | hi
    · rw [List.getElem_append_left hi, List.getElem_append_left (Nat.lt_of_succ_lt hi)]
      exact h5 i hi
    · have hi2 : i + 1 = acc.length := by
        rw [hlen] at h
        omega
      have hne : acc ≠ [] := by
        intro hc
        rw [hc] at hi2
        simp at hi2
      rw [List.getElem_append_right (by omega : acc.length ≤ i + 1)]
      rw [List.getElem_append_left (by omega : i < acc.length)]
      rw [List.getElem_singleton]
      have hl := h2 hne
      rw [List.getLast_eq_getElem] at hl
      have e : acc.length - 1 = i := by omega
      simp only [e] at hl
      exact hl

theorem parseAux_inv (lines : List String) :
    ∀ (acc : List Utterance) (last : Option String), AccInv acc last →
      ParseInv (parseUtterancesAux lines acc last acc.length) := by
  induction lines with
  | nil =>
    intro acc last hInv
    exact ⟨hInv.1, hInv.2.2.2.1, hInv.2.2.2.2⟩
  | cons l rest ih =>
    intro acc last hInv
    rw [parseUtterancesAux]
    cases hm : matchLine l with
    | none => exact ih acc last hInv
    | some g =>
      obtain ⟨st, en, lab, txt⟩ := g
      have hlen : (acc ++ [(⟨acc.length, st, en, lab, pyStrip txt, last⟩ : Utterance)]).length
          = acc.length + 1 := by simp
      have := ih (acc ++ [⟨acc.length, st, en, lab, pyStrip txt, last⟩]) (some lab)
        (accInv_snoc hInv st en lab (pyStrip txt))
      rw [hlen] at this
      exact this

/-- C6: the utterances returned by `parse_utterances` are indexed
exactly `0..n-1` in order (non-matching lines consume no index), the
first utterance's `previous_speaker_label` is null, and every later
utterance's `previous_speaker_label` is the label of the immediately
preceding parsed utterance. -/
theorem parse_indices_and_adjacency (lines : List String) :
    ((parse_utterances lines).map (fun u => u.index)
        = List.range (parse_utterances lines).length)
    ∧ (∀ i (h : i < (parse_utterances lines).length),
        ((parse_utterances lines).get ⟨i, h⟩).index = i)
    ∧ (∀ h : 0 < (parse_utterances lines).length,
        ((parse_utterances lines).get ⟨0, h⟩).previous_speaker_label = none)
    ∧ (∀ i (h : i + 1 < (parse_utterances lines).length),
        ((parse_utterances lines).get ⟨i + 1, h⟩).previous_speaker_label
          = some (((parse_utterances lines).get ⟨i, Nat.lt_of_succ_lt h⟩).speaker_label)) := by
  have hbase : AccInv [] none := by
    refine ⟨?_, ?_, ?_, ?_, ?_⟩ <;> simp [AccInv]
  have h := parseAux_inv lines [] none hbase
  obtain ⟨h1, h4, h5⟩ := h
  refine ⟨?_, h1, h4, h5⟩
  apply List.ext_getElem (by simp)
  intro i hi1 hi2
  simp only [List.getElem_map, List.getElem_range]
  have := h1 i (by simpa using hi1)
  simpa [List.get_eq_getElem] using this

/-- Witness for `parse_indices_and_adjacency` on a three-line input
whose middle line does not match: indices are 0 and 1 and the second
utterance's previous label is the first's. -/
theorem parse_indices_and_adjacency_witness :
    ((parse_utterances ["[00:00:01 - 00:00:02] SPEAKER_A: Hello.",
        "Chairman opens the hearing.",
        "[00:00:03 - 00:00:04] SPEAKER_B: Hi."]).get ⟨0 + 1, by decide⟩).previous_speaker_label
      = some (((parse_utterances ["[00:00:01 - 00:00:02] SPEAKER_A: Hello.",
          "Chairman opens the hearing.",
          "[00:00:03 - 00:00:04] SPEAKER_B: Hi."]).get
            ⟨0, by decide⟩).speaker_label) :=
  (parse_indices_and_adjacency ["[00:00:01 - 00:00:02] SPEAKER_A: Hello.",
    "Chairman opens the hearing.",
    "[00:00:03 - 00:00:04] SPEAKER_B: Hi."]).2.2.2 0 (by decide)

/-! ## C7 and C8 -/

theorem alookup_map_snd {α β : Type} (g : α → β) (m : List (String × α)) (k : String) :
    alookup (m.map (fun p => (p.1, g p.2))) k = (alookup m k).map g := by
  induction m with
  | nil => rfl
  | cons p rest ih =>
    obtain ⟨a, w⟩ := p
    simp only [List.map_cons, alookup_cons]
    by_cases hk : a = k
    · rw [if_pos hk, if_pos hk]
      rfl
    · rw [if_neg hk, if_neg hk]
      exact ih

theorem alookup_foldl_addToGroup (us : List Utterance) :
    ∀ (acc : List (String × List Utterance)) (lbl : String),
      alookup (us.foldl addToGroup acc) lbl
        = groupAppend (alookup acc lbl) (us.filter (fun u => u.speaker_label == lbl)) := by
  induction us with
  | nil =>
    intro acc lbl
    cases h : alookup acc lbl <;> simp [groupAppend, h]
  | cons u us ih =>
    intro acc lbl
    rw [List.foldl_cons, ih]
    by_cases hl : u.speaker_label = lbl
    · have hf : List.filter (fun x => x.speaker_label == lbl) (u :: us)
          = u :: List.filter (fun x => x.speaker_label == lbl) us := by
        simp [List.filter_cons, hl]
      rw [hf]
      have hgroup : alookup (addToGroup acc u) lbl
          = groupAppend (alookup acc lbl) [u] := by
        rw [addToGroup, hl]
        cases hacc : alookup acc lbl with
        | some us0 =>
          show alookup (aset acc lbl (us0 ++ [u])) lbl = groupAppend (some us0) [u]
          rw [alookup_aset_self, hacc]
          rfl
        | none =>
          show alookup (acc ++ [(lbl, [u])]) lbl = groupAppend none [u]
          rw [alookup_append_right _ hacc, alookup_cons, if_pos rfl]
          rfl
      rw [hgroup]
      cases hacc : alookup acc lbl with
      | some us0 => simp [groupAppend]
      | none =>
        cases hfu : List.filter (fun x => x.speaker_label == lbl) us <;>
          simp [groupAppend]
    · have hf : List.filter (fun x => x.speaker_label == lbl) (u :: us)
          = List.filter (fun x => x.speaker_label == lbl) us := by
        simp [List.filter_cons, hl]
      rw [hf]
      have hgroup : alookup (addToGroup acc u) lbl = alookup acc lbl := by
        rw [addToGroup]
        cases hacc : alookup acc u.speaker_label with
        | some us0 => rw [alookup_aset_ne _ _ _ _ (fun hc => hl hc.symm)]
        | none =>
          cases hacc2 : alookup acc lbl with
          | some v => exact alookup_append_left _ hacc2
          | none =>
            rw [alookup_append_right _ hacc2, alookup_cons, if_neg hl]
            rfl
      rw [hgroup]

theorem summarize_lookup (us : List Utterance) (K : Nat) (lbl : String)
    (e : SpeakerSummary) (h : alookup (summarize_observed_speakers us K) lbl = some e) :
    ∃ gl, us.filter (fun u => u.speaker_label == lbl) = gl
      ∧ gl ≠ []
      ∧ e = ⟨(gl.take K).head?.map (·.start_time), gl.length, (gl.take K).map exampleOf⟩ := by
  simp only [summarize_observed_speakers] at h
  have hmap : alookup
      (List.map (fun p => (p.1,
        ({ first_seen := Option.map (fun x => x.start_time) (List.take K p.2).head?,
           num_observed := p.2.length,
           examples := List.map exampleOf (List.take K p.2) } : SpeakerSummary)))
        (List.foldl addToGroup [] us)) lbl
      = (alookup (List.foldl addToGroup [] us) lbl).map
          (fun us0 =>
            ({ first_seen := Option.map (fun x => x.start_time) (List.take K us0).head?,
               num_observed := us0.length,
               examples := List.map exampleOf (List.take K us0) } : SpeakerSummary)) :=
    alookup_map_snd
      (fun us0 =>
        ({ first_seen := Option.map (fun x => x.start_time) (List.take K us0).head?,
           num_observed := us0.length,
           examples := List.map exampleOf (List.take K us0) } : SpeakerSummary)) _ _
  rw [hmap, alookup_foldl_addToGroup] at h
  cases hf : List.filter (fun u => u.speaker_label == lbl) us with
  | nil =>
    rw [hf] at h
    exact absurd h (by simp [groupAppend, alookup])
  | cons g gs =>
    rw [hf] at h
    refine ⟨g :: gs, rfl, by simp, ?_⟩
    have : groupAppend (alookup ([] : List (String × List Utterance)) lbl) (g :: gs)
        = some (g :: gs) := by simp [groupAppend, alookup]
    rw [this] at h
    exact (Option.some.inj h).symm

/-- C7: for every label present in the summary, `num_observed` is the
label's true utterance count, the examples are exactly the images of
the first `min(K, num_observed)` utterances of that label in transcript
order, and each example snippet is the utterance text truncated to 400
characters. -/
theorem summary_examples_capped_head (us : List Utterance) (K : Nat) (lbl : String)
    (e : SpeakerSummary) (h : alookup (summarize_observed_speakers us K) lbl = some e) :
    e.num_observed = (us.filter (fun u => u.speaker_label == lbl)).length
    ∧ e.examples = ((us.filter (fun u => u.speaker_label == lbl)).take K).map exampleOf
    ∧ e.examples.length ≤ K
    ∧ e.examples.length ≤ e.num_observed
    ∧ ∀ ex ∈ e.examples, ∃ u ∈ us, ex.text_snippet = pyTake u.text 400 := by
  obtain ⟨gl, hgl, hne, he⟩ := summarize_lookup us K lbl e h
  subst he
  rw [hgl]
  refine ⟨rfl, rfl, ?_, ?_, ?_⟩
  · simp [List.length_take]
  · simp only [List.length_map, List.length_take]
    omega
  · intro ex hex
    simp only [List.mem_map] at hex
    obtain ⟨u, hu, he2⟩ := hex
    have hu2 : u ∈ gl := List.mem_of_mem_take hu
    have hu3 : u ∈ us := List.mem_of_mem_filter (hgl ▸ hu2)
    exact ⟨u, hu3, by rw [← he2]; rfl⟩

/-- Witness for `summary_examples_capped_head` with cap 1 and two SPEAKER_A
utterances: the one example is the first utterance, count is 2. -/
theorem summary_examples_capped_head_witness :
    (⟨some "00:00:01", 2,
      [⟨0, "00:00:01", "00:00:02", none, "Hello."⟩]⟩ : SpeakerSummary).num_observed
      = ((parse_utterances ["[00:00:01 - 00:00:02] SPEAKER_A: Hello.",
          "[00:00:03 - 00:00:04] SPEAKER_A: Again."]).filter
            (fun u => u.speaker_label == "SPEAKER_A")).length :=
  (summary_examples_capped_head
    (parse_utterances ["[00:00:01 - 00:00:02] SPEAKER_A: Hello.",
      "[00:00:03 - 00:00:04] SPEAKER_A: Again."]) 1 "SPEAKER_A"
    ⟨some "00:00:01", 2, [⟨0, "00:00:01", "00:00:02", none, "Hello."⟩]⟩ (by rfl)).1

/-! ## C8 -/

/-- C8 counterexample: with cap `K = 0` (the claim admits every K ≥ 0)
a label present in the summary has `first_seen = None`, not the start
time of its earliest utterance (`"00:01:02"` here): the code reads
`first_seen` off `head_us = us[:K]`, which is empty when K = 0. -/
theorem first_seen_dropped_at_cap_zero :
    summarize_observed_speakers
        (parse_utterances ["[00:01:02 - 00:01:10] SPEAKER_A: Thank you, Chairman."]) 0
      = [("SPEAKER_A", ⟨none, 1, []⟩)]
    ∧ (parse_utterances ["[00:01:02 - 00:01:10] SPEAKER_A: Thank you, Chairman."]).map
        (fun u => u.start_time) = ["00:01:02"]
    ∧ (none : Option String) ≠ some "00:01:02" :=
  ⟨rfl, rfl, fun h => Option.noConfusion h⟩

/-- C8 amended: with a positive cap, every label present in the summary
has `first_seen` equal to the start time of the label's earliest (first
in transcript order) utterance and a positive `num_observed`; with cap
zero, `first_seen` is `None` even though the label is present. -/
theorem summary_first_seen_amended (us : List Utterance) (K : Nat) (lbl : String)
    (e e0 : SpeakerSummary) :
    (alookup (summarize_observed_speakers us (K + 1)) lbl = some e →
      1 ≤ e.num_observed
      ∧ ∃ u, us.find? (fun x => x.speaker_label == lbl) = some u
          ∧ e.first_seen = some u.start_time)
    ∧ (alookup (summarize_observed_speakers us 0) lbl = some e0 → e0.first_seen = none) := by
  constructor
  · intro h
    obtain ⟨gl, hgl, hne, he⟩ := summarize_lookup us (K + 1) lbl e h
    subst he
    cases gl with
    | nil => exact absurd rfl hne
    | cons g gs =>
      refine ⟨by simp, g, ?_, by simp [List.take_cons]⟩
      rw [← List.filter_head? _ us, hgl]
      rfl
  · intro h
    obtain ⟨gl, hgl, hne, he⟩ := summarize_lookup us 0 lbl e0 h
    subst he
    simp

/-- Witness for `summary_first_seen_amended`: with cap 1 the sole
SPEAKER_A entry records first_seen "00:01:02". -/
theorem summary_first_seen_amended_witness :
    1 ≤ (⟨some "00:01:02", 1,
        [⟨0, "00:01:02", "00:01:10", none, "Thank you, Chairman."⟩]⟩ : SpeakerSummary).num_observed
    ∧ ∃ u, (parse_utterances ["[00:01:02 - 00:01:10] SPEAKER_A: Thank you, Chairman."]).find?
          (fun x => x.speaker_label == "SPEAKER_A") = some u
        ∧ (⟨some "00:01:02", 1,
            [⟨0, "00:01:02", "00:01:10", none, "Thank you, Chairman."⟩]⟩ : SpeakerSummary).first_seen
          = some u.start_time :=
  (summary_first_seen_amended
    (parse_utterances ["[00:01:02 - 00:01:10] SPEAKER_A: Thank you, Chairman."]) 0 "SPEAKER_A"
    ⟨some "00:01:02", 1, [⟨0, "00:01:02", "00:01:10", none, "Thank you, Chairman."⟩]⟩
    ⟨some "00:01:02", 1, [⟨0, "00:01:02", "00:01:10", none, "Thank you, Chairman."⟩]⟩).1
    (by rfl)

/-! ## C5 -/

theorem bioguide_key_ne_name_key (a b : String) : "bioguide:" ++ a ≠ "name:" ++ b := by
  intro h
  have h2 := congrArg String.data h
  rw [String.data_append, String.data_append] at h2
  have hb : ("bioguide:").data = ['b', 'i', 'o', 'g', 'u', 'i', 'd', 'e', ':'] := rfl
  have hn : ("name:").data = ['n', 'a', 'm', 'e', ':'] := rfl
  rw [hb, hn] at h2
  simp at h2

theorem alookup_mergeFields_of_contains (d : Rec) :
    ∀ (ex : Rec) (key : String), rcontains ex key = true →
      alookup (mergeFields ex d) key = alookup ex key := by
  induction d with
  | nil => intro ex key _; rfl
  | cons p rest ih =>
    intro ex key h
    obtain ⟨k2, v⟩ := p
    rw [mergeFields]
    by_cases hc : rcontains ex k2 || isNull v
    · rw [if_pos hc]
      exact ih ex key h
    · rw [if_neg hc]
      cases hl : alookup ex key with
      | none => rw [rcontains, hl] at h; simp at h
      | some w =>
        have h2 : rcontains (ex ++ [(k2, v)]) key = true := by
          rw [rcontains, alookup_append_left _ hl]
          rfl
        exact (ih _ key h2).trans (alookup_append_left _ hl)

theorem not_truthy_mergeFields (key : String) (d : Rec) :
    ∀ ex, truthyOpt (alookup ex key) = false →
      (∀ v, (key, v) ∈ d → jtruthy v = false) →
      truthyOpt (alookup (mergeFields ex d) key) = false := by
  induction d with
  | nil => intro ex hex _; exact hex
  | cons p rest ih =>
    intro ex hex hd
    obtain ⟨k2, v⟩ := p
    rw [mergeFields]
    by_cases hc : rcontains ex k2 || isNull v
    · rw [if_pos hc]
      exact ih ex hex fun w hw => hd w (List.mem_cons_of_mem _ hw)
    · rw [if_neg hc]
      refine ih _ ?_ fun w hw => hd w (List.mem_cons_of_mem _ hw)
      have hnone2 : alookup ex k2 = none := by
        simp only [Bool.or_eq_true, not_or] at hc
        have := hc.1
        rw [rcontains] at this
        cases hx : alookup ex k2 with
        | none => rfl
        | some w => rw [hx] at this; simp at this
      by_cases hk : k2 = key
      · subst hk
        rw [alookup_append_right _ hnone2, alookup_cons, if_pos rfl]
        exact hd v (List.mem_cons_self _ _)
      · cases hl : alookup ex key with
        | some w =>
          rw [alookup_append_left _ hl]
          rw [hl] at hex
          exact hex
        | none =>
          rw [alookup_append_right _ hl, alookup_cons, if_neg hk]
          rfl

theorem keyFor_mergeFields {ex d : Rec} (hwf : (d.map Prod.fst).Nodup)
    (hname : truthyOpt (alookup ex "name") = true)
    (hkey : keyFor d = keyFor ex) :
    keyFor (mergeFields ex d) = keyFor ex := by
  have hnc : rcontains ex "name" = true := by
    rw [rcontains]
    cases hl : alookup ex "name" with
    | none => rw [hl] at hname; simp [truthyOpt] at hname
    | some w => rfl
  have hn : alookup (mergeFields ex d) "name" = alookup ex "name" :=
    alookup_mergeFields_of_contains d ex "name" hnc
  cases hbt : truthyOpt (alookup ex "bioguide") with
  | true =>
    have hbc : rcontains ex "bioguide" = true := by
      rw [rcontains]
      cases hl : alookup ex "bioguide" with
      | none => rw [hl] at hbt; simp [truthyOpt] at hbt
      | some w => rfl
    have hb2 : alookup (mergeFields ex d) "bioguide" = alookup ex "bioguide" :=
      alookup_mergeFields_of_contains d ex "bioguide" hbc
    unfold keyFor
    rw [hb2, hn]
  | false =>
    have hd : ∀ v, ("bioguide", v) ∈ d → jtruthy v = false := by
      intro v hv
      by_contra hc
      have hcv : jtruthy v = true := by
        cases hvv : jtruthy v with
        | true => rfl
        | false => exact absurd hvv hc
      have hlv : alookup d "bioguide" = some v := nodup_mem_alookup hwf hv
      have hkd : keyFor d
          = "bioguide:" ++ pyStr ((alookup d "bioguide").getD .jnull) := by
        unfold keyFor
        rw [if_pos (by rw [hlv]; exact hcv)]
      have hke : keyFor ex
          = "name:" ++ pyLower (pyStrip (pyNameOrEmpty (alookup ex "name"))) := by
        unfold keyFor
        rw [if_neg (by rw [hbt]; exact Bool.false_ne_true)]
      exact bioguide_key_ne_name_key _ _ ((hkd.symm.trans hkey).trans hke)
    have hb2 : truthyOpt (alookup (mergeFields ex d) "bioguide") = false :=
      not_truthy_mergeFields "bioguide" d ex hbt hd
    unfold keyFor
    rw [hb2, hbt, hn]
    simp

theorem stInv_mergeStep {st : List (String × Rec)} {d : Rec} (hInv : StInv st)
    (hwf : (d.map Prod.fst).Nodup) : StInv (mergeStep st d) := by
  rw [mergeStep]
  by_cases ht : truthyOpt (alookup d "name") = true
  · rw [if_pos ht]
    show StInv (match alookup st (keyFor d) with
      | none => st ++ [(keyFor d, d)]
      | some ex => aset st (keyFor d) (mergeFields ex d))
    cases hf : alookup st (keyFor d) with
    | none =>
      show StInv (st ++ [(keyFor d, d)])
      constructor
      · rw [List.map_append, List.nodup_append]
        refine ⟨hInv.1, by simp, ?_⟩
        intro k hk
        simp only [List.map_cons, List.map_nil, List.mem_singleton]
        intro hc
        exact (alookup_eq_none.mp hf) (hc ▸ hk)
      · intro p hp
        rcases List.mem_append.mp hp with h1 | h1
        · exact hInv.2 p h1
        · rw [List.mem_singleton.mp h1]
          exact ⟨rfl, ht⟩
    | some ex =>
      show StInv (aset st (keyFor d) (mergeFields ex d))
      have hex := hInv.2 (keyFor d, ex) (alookup_mem hf)
      constructor
      · rw [map_fst_aset]
        exact hInv.1
      · intro p hp
        rcases mem_aset hp with h1 | h1
        · exact hInv.2 p h1
        · rw [h1]
          have hkmf : keyFor (mergeFields ex d) = keyFor ex :=
            keyFor_mergeFields hwf hex.2 hex.1.symm
          refine ⟨hkmf.trans hex.1, ?_⟩

          have hnc : rcontains ex "name" = true := by
            rw [rcontains]
            cases hl : alookup ex "name" with
            | none => rw [hl] at hex; exact absurd hex.2 (by simp [truthyOpt])
            | some w => rfl
          rw [alookup_mergeFields_of_contains d ex "name" hnc]
          exact hex.2
  · rw [if_neg ht]
    exact hInv

theorem stInv_fold {lst : List Rec} : ∀ {st : List (String × Rec)}, StInv st →
    (∀ d ∈ lst, (d.map Prod.fst).Nodup) → StInv (lst.foldl mergeStep st) := by
  induction lst with
  | nil => intro st h _; exact h
  | cons d rest ih =>
    intro st h hwf
    rw [List.foldl_cons]
    exact ih (stInv_mergeStep h (hwf d (List.mem_cons_self _ _)))
      fun x hx => hwf x (List.mem_cons_of_mem _ hx)

theorem remerge_eq {st : List (String × Rec)} (hInv : StInv st) :
    ∀ acc, (∀ k ∈ st.map Prod.fst, alookup acc k = none) →
      (st.map Prod.snd).foldl mergeStep acc = acc ++ st := by
  induction st with
  | nil => intro acc _; simp
  | cons p rest ih =>
    obtain ⟨k, r⟩ := p
    intro acc hdisj
    have hkr := hInv.2 (k, r) (List.mem_cons_self _ _)
    have hknotrest : k ∉ rest.map Prod.fst := by
      have := hInv.1
      rw [List.map_cons, List.nodup_cons] at this
      exact this.1
    have hstep : mergeStep acc r = acc ++ [(k, r)] := by
      rw [mergeStep, if_pos hkr.2]
      show (match alookup acc (keyFor r) with
        | none => acc ++ [(keyFor r, r)]
        | some ex => aset acc (keyFor r) (mergeFields ex r)) = acc ++ [(k, r)]
      rw [hkr.1, hdisj k (by simp)]
    rw [List.map_cons, List.foldl_cons, hstep]
    have hInv2 : StInv rest := by
      refine ⟨?_, fun q hq => hInv.2 q (List.mem_cons_of_mem _ hq)⟩
      have := hInv.1
      rw [List.map_cons, List.nodup_cons] at this
      exact this.2
    rw [ih hInv2 (acc ++ [(k, r)]) ?_]
    · rw [List.append_assoc, List.singleton_append]
    · intro k2 hk2
      have hne : ¬ k = k2 := fun hc => hknotrest (hc ▸ hk2)
      rw [alookup_append_right _ (hdisj k2 (by simp [hk2])), alookup_cons, if_neg hne]
      rfl

/-- C5: roster merge is associative on identity key: one merge of the
three sources equals merging the first two and then merging that result
with the third, with identical record lists and field contents.  The
sources' records are required to be genuine Python dicts (distinct
keys) with string names, as produced by the loaders. -/
theorem merge_known_speakers_assoc (A B C : List Rec)
    (hA : ∀ d ∈ A, RecWf d) (hB : ∀ d ∈ B, RecWf d) (hC : ∀ d ∈ C, RecWf d) :
    merge_known_speakers [A, B, C]
      = merge_known_speakers [merge_known_speakers [A, B], C] := by
  have hInv2 : StInv (List.foldl mergeStep (List.foldl mergeStep [] A) B) :=
    stInv_fold (stInv_fold ⟨by simp, by simp⟩ fun d hd => (hA d hd).1)
      fun d hd => (hB d hd).1
  simp only [merge_known_speakers, List.foldl_cons, List.foldl_nil]
  rw [remerge_eq hInv2 [] fun k _ => rfl, List.nil_append]

/-- Witness for `merge_known_speakers_assoc` on three one-record
sources whose records collide on the name key. -/
theorem merge_known_speakers_assoc_witness :
    merge_known_speakers
        [[[("name", .jstr "Jane Doe"), ("bioguide", .jstr "D001")]],
         [[("name", .jstr "Jane Doe"), ("party", .jstr "majority")]],
         [[("name", .jstr "jane doe "), ("title", .jstr "Chair")]]]
      = merge_known_speakers
          [merge_known_speakers
            [[[("name", .jstr "Jane Doe"), ("bioguide", .jstr "D001")]],
             [[("name", .jstr "Jane Doe"), ("party", .jstr "majority")]]],
           [[("name", .jstr "jane doe "), ("title", .jstr "Chair")]]] :=
  merge_known_speakers_assoc
    [[("name", .jstr "Jane Doe"), ("bioguide", .jstr "D001")]]
    [[("name", .jstr "Jane Doe"), ("party", .jstr "majority")]]
    [[("name", .jstr "jane doe "), ("title", .jstr "Chair")]]
    (by intro d hd; rw [List.mem_singleton.mp hd]; exact ⟨by decide, by decide⟩)
    (by intro d hd; rw [List.mem_singleton.mp hd]; exact ⟨by decide, by decide⟩)
    (by intro d hd; rw [List.mem_singleton.mp hd]; exact ⟨by decide, by decide⟩)

/-! ## C4 -/

theorem parse_single_ne_nil (s : String) :
    (parse_utterances [s] ≠ []) ↔ (matchLine s).isSome = true := by
  rw [parse_utterances, parseUtterancesAux]
  cases hm : matchLine s with
  | none => simp [parseUtterancesAux]
  | some g =>
    obtain ⟨st, en, lab, txt⟩ := g
    simp [parseUtterancesAux]

theorem pyWs_eq_false_of_isDigit {c : Char} (h : c.isDigit = true) : pyWs c = false := by
  cases hws : pyWs c with
  | false => rfl
  | true =>
    simp only [pyWs, Bool.or_eq_true, decide_eq_true_eq] at hws
    rcases hws with ((((h1 | h1) | h1) | h1) | h1) | h1 <;>
      (subst h1; exact absurd h (by decide))

theorem dropWhile_ws_append {w : List Char} (hw : ∀ c ∈ w, pyWs c = true)
    {c0 : Char} (hc0 : pyWs c0 = false) (r : List Char) :
    List.dropWhile pyWs (w ++ c0 :: r) = c0 :: r := by
  induction w with
  | nil => simp [List.dropWhile, hc0]
  | cons a w2 ih =>
    rw [List.cons_append, List.dropWhile_cons_of_pos (hw a (List.mem_cons_self _ _))]
    exact ih fun c hc => hw c (List.mem_cons_of_mem _ hc)

theorem isTime_shape {t : List Char} (h : isTimeChars t = true) :
    ∃ a b d e g h8, t = [a, b, ':', d, e, ':', g, h8]
      ∧ a.isDigit = true ∧ b.isDigit = true ∧ d.isDigit = true
      ∧ e.isDigit = true ∧ g.isDigit = true ∧ h8.isDigit = true := by
  match t, h with
  | [a, b, c, d, e, f, g, h8], h => ?_
  simp only [isTimeChars, Bool.and_eq_true, decide_eq_true_eq] at h
  obtain ⟨⟨⟨⟨⟨⟨⟨ha, hb⟩, hc⟩, hd⟩, he⟩, hf⟩, hg⟩, hh⟩ := h
  exact ⟨a, b, d, e, g, h8, by rw [hc, hf], ha, hb, hd, he, hg, hh⟩

theorem parseTime_of_isTime {t : List Char} (h : isTimeChars t = true) (rest : List Char) :
    parseTime (t ++ rest) = some (String.mk t, rest) := by
  obtain ⟨a, b, d, e, g, h8, hsh, ha, hb, hd, he, hg, hh⟩ := isTime_shape h
  subst hsh
  simp [parseTime, ha, hb, hd, he, hg, hh]

theorem parseTime_inv {l : List Char} {s : String} {rest : List Char}
    (h : parseTime l = some (s, rest)) :
    ∃ t, l = t ++ rest ∧ isTimeChars t = true ∧ s = String.mk t := by
  match l, h with
  | a :: b :: c :: d :: e :: f :: g :: h8 :: r, h => ?_
  rw [parseTime] at h
  split at h
  · rcases Option.some.inj h with h2
    injection h2 with hs hr
    subst hr
    refine ⟨[a, b, c, d, e, f, g, h8], rfl, ?_, hs.symm⟩
    simp only [isTimeChars]
    simp_all
  · exact absurd h (by simp)

theorem dropLit_self (lit : List Char) (rest : List Char) :
    dropLit lit (lit ++ rest) = some rest := by
  induction lit with
  | nil => rfl
  | cons c cs ih => simp [dropLit, ih]

theorem dropLit_inv {lit l rest : List Char} (h : dropLit lit l = some rest) :
    l = lit ++ rest := by
  induction lit generalizing l with
  | nil =>
    rw [dropLit] at h
    rw [Option.some.inj h]
    rfl
  | cons c cs ih =>
    match l, h with
    | r :: rs, h => ?_
    rw [dropLit] at h
    by_cases hrc : r = c
    · rw [if_pos hrc] at h
      rw [List.cons_append, hrc, ih h]
    · rw [if_neg hrc] at h
      exact absurd h (by simp)

/-- C4 counterexample: the line
`[00:00:00 - 00:00:01] SPEAKER_AB: hi` matches the claim's grammar
(label `SPEAKER_` followed by one or more uppercase letters) yet the
parser produces no utterance for it: the regex `SPEAKER_[A-Z]` accepts
exactly one uppercase letter. -/
theorem speaker_two_letters_rejected :
    MatchesGrammarSpec "[00:00:00 - 00:00:01] SPEAKER_AB: hi"
    ∧ parse_utterances ["[00:00:00 - 00:00:01] SPEAKER_AB: hi"] = [] := by
  constructor
  · refine ⟨"00:00:00".data, "00:00:01".data, [' '], [' '], [' '], [' '], "hi".data,
      ['A', 'B'], ?_, ?_, ?_, ?_, ?_, ?_, ?_, ?_, ?_, ?_⟩ <;> first
      | rfl
      | decide
  · rfl

theorem matchLine_isSome_of_grammar {s : String} (hnl : ∀ c ∈ s.data, c ≠ '\n')
    (hg : MatchesGrammarOneLetter s) : (matchLine s).isSome = true := by
  obtain ⟨t1, t2, w1, w2, w3, w4, txt, lab, hdata, ht1, ht2, hw1, hw2, hw3, hw3ne,
    hlab, hw4⟩ := hg
  obtain ⟨a2, b2, d2, e2, g2, h82, hsh2, ha2, hb2, hd2, he2, hg2, hh2⟩ := isTime_shape ht2
  cases w3 with
  | nil => exact absurd rfl hw3ne
  | cons c0 w3' =>
  have hdash : pyWs '-' = false := by decide
  have hS : pyWs 'S' = false := by decide
  have ha2ws : pyWs a2 = false := pyWs_eq_false_of_isDigit ha2
  have hc0 : pyWs c0 = true := hw3 c0 (List.mem_cons_self _ _)
  have hw3'all : ∀ c ∈ w3', pyWs c = true := fun c hc => hw3 c (List.mem_cons_of_mem _ hc)
  have hlabB : ('A' ≤ lab && lab ≤ 'Z') = true := by
    simp only [Bool.and_eq_true, decide_eq_true_eq]
    exact hlab
  have hdw3 : ∀ Y : List Char,
      List.dropWhile pyWs (w3' ++ 'S' :: 'P' :: 'E' :: 'A' :: 'K' :: 'E' :: 'R' :: '_' :: Y)
        = 'S' :: 'P' :: 'E' :: 'A' :: 'K' :: 'E' :: 'R' :: '_' :: Y :=
    fun Y => dropWhile_ws_append hw3'all hS _
  have hdl : ∀ Y : List Char,
      dropLit ['S', 'P', 'E', 'A', 'K', 'E', 'R', '_']
          ('S' :: 'P' :: 'E' :: 'A' :: 'K' :: 'E' :: 'R' :: '_' :: Y) = some Y :=
    fun Y => dropLit_self _ Y
  have hfin : List.dropWhile (fun ch => !(ch = '\n')) (List.dropWhile pyWs (w4 ++ txt)) = [] := by
    rw [List.dropWhile_eq_nil_iff]
    intro x hx
    have hx2 : x ∈ w4 ++ txt := (List.dropWhile_sublist _).subset hx
    have hx3 : x ∈ s.data := by
      rw [hdata, hsh2]
      simp only [List.mem_cons, List.mem_append] at hx2 ⊢
      tauto
    simp [hnl x hx3]
  subst hsh2
  have hpt2 : ∀ Y : List Char,
      parseTime (a2 :: b2 :: ':' :: d2 :: e2 :: ':' :: g2 :: h82 :: Y)
        = some (String.mk [a2, b2, ':', d2, e2, ':', g2, h82], Y) :=
    fun Y => parseTime_of_isTime ht2 Y
  simp only [matchLine, matchAfterTimes, matchAfterWs, matchAfterLabel, hdata,
    List.append_assoc, List.cons_append, List.nil_append,
    parseTime_of_isTime ht1, dropWhile_ws_append hw1 hdash, dropWhile_ws_append hw2 ha2ws,
    hpt2, hc0, if_true, hdw3, hdl, hlabB, hfin, Option.isSome_some]

theorem matchAfterTimes_inv {st en : String} {r3 : List Char}
    (h : (matchAfterTimes st en r3).isSome = true) :
    ∃ c r4, r3 = ']' :: c :: r4 ∧ pyWs c = true
      ∧ (matchAfterWs st en r4).isSome = true := by
  rw [matchAfterTimes.eq_def] at h
  split at h
  case h_1 c r4 =>
    split at h
    case isTrue hc => exact ⟨c, r4, rfl, hc, h⟩
    case isFalse => simp at h
  case h_2 => simp at h

theorem matchAfterWs_inv {st en : String} {r4 : List Char}
    (h : (matchAfterWs st en r4).isSome = true) :
    ∃ l r5, dropLit "SPEAKER_".data (r4.dropWhile pyWs) = some (l :: ':' :: r5)
      ∧ ('A' ≤ l ∧ l ≤ 'Z') := by
  rw [matchAfterWs.eq_def] at h
  split at h
  case _ l r5 heq =>
    split at h
    case isTrue hl =>
      refine ⟨l, r5, heq, ?_⟩
      simpa using hl
    case isFalse => simp at h
  case _ => simp at h

theorem matchLine_inv {s : String} (h : (matchLine s).isSome = true) :
    ∃ r0 startT r1 r2 endT r3, s.data = '[' :: r0
      ∧ parseTime r0 = some (startT, r1)
      ∧ List.dropWhile pyWs r1 = '-' :: r2
      ∧ parseTime (List.dropWhile pyWs r2) = some (endT, r3)
      ∧ (matchAfterTimes startT endT r3).isSome = true := by
  rw [matchLine.eq_def] at h
  split at h
  case _ r0 heq0 =>
    split at h
    case _ => simp at h
    case _ startT r1 heq1 =>
      split at h
      case _ r2 heq2 =>
        split at h
        case _ => simp at h
        case _ endT r3 heq3 =>
          exact ⟨r0, startT, r1, r2, endT, r3, heq0, heq1, heq2, heq3, h⟩
      case _ => simp at h
  case _ => simp at h

theorem grammar_of_matchLine {s : String} (h : (matchLine s).isSome = true) :
    MatchesGrammarOneLetter s := by
  obtain ⟨r0, startT, r1, r2, endT, r3, heq0, heq1, heq2, heq3, h3⟩ := matchLine_inv h
  obtain ⟨c, r4, heq4, hcws, h4⟩ := matchAfterTimes_inv h3
  obtain ⟨l, r5, heq5, hlt⟩ := matchAfterWs_inv h4
  obtain ⟨t1, hr0, ht1, -⟩ := parseTime_inv heq1
  obtain ⟨t2, hdw2, ht2, -⟩ := parseTime_inv heq3
  have hr4 := dropLit_inv heq5
  have e1 : r1 = r1.takeWhile pyWs ++ ('-' :: r2) := by
    conv_lhs => rw [← List.takeWhile_append_dropWhile (p := pyWs) (l := r1)]
    rw [heq2]
  have e2 : r2 = r2.takeWhile pyWs ++ (t2 ++ r3) := by
    conv_lhs => rw [← List.takeWhile_append_dropWhile (p := pyWs) (l := r2)]
    rw [hdw2]
  have e4 : r4 = r4.takeWhile pyWs ++ ("SPEAKER_".data ++ (l :: ':' :: r5)) := by
    conv_lhs => rw [← List.takeWhile_append_dropWhile (p := pyWs) (l := r4)]
    rw [hr4]
  refine ⟨t1, t2, r1.takeWhile pyWs, r2.takeWhile pyWs, c :: r4.takeWhile pyWs, [], r5, l,
    ?_, ht1, ht2,
    fun c2 hc2 => List.mem_takeWhile_imp hc2,
    fun c2 hc2 => List.mem_takeWhile_imp hc2,
    ?_, by simp, hlt, by simp⟩
  · conv_lhs => rw [heq0, hr0, e1, e2, heq4, e4]
    simp [List.append_assoc, List.cons_append]
  · intro c2 hc2
    rcases List.mem_cons.mp hc2 with h1 | h1
    · rw [h1]; exact hcws
    · exact List.mem_takeWhile_imp h1

/-- C4 amended: for every newline-free input line, the parser produces
an utterance iff the line matches the grammar
`[<start> - <end>] <label>: <text>` anchored at line start and end,
with `<start>`/`<end>` exactly `HH:MM:SS` and `<label>` being
`SPEAKER_` followed by EXACTLY ONE uppercase letter (the regex class
`SPEAKER_[A-Z]` accepts a single letter, so e.g. `SPEAKER_AB` is
rejected). -/
theorem line_accepted_iff_grammar (s : String) (hnl : ∀ c ∈ s.data, c ≠ '\n') :
    parse_utterances [s] ≠ [] ↔ MatchesGrammarOneLetter s := by
  rw [parse_single_ne_nil]
  exact ⟨fun h => grammar_of_matchLine h, fun hg => matchLine_isSome_of_grammar hnl hg⟩

/-- Witness for `line_accepted_iff_grammar`: the spec's example line is
accepted, hence matches the one-letter grammar. -/
theorem line_accepted_iff_grammar_witness :
    MatchesGrammarOneLetter "[00:01:02 - 00:01:10] SPEAKER_A: Thank you, Chairman." :=
  (line_accepted_iff_grammar "[00:01:02 - 00:01:10] SPEAKER_A: Thank you, Chairman."
    (by decide)).mp (by decide)

end SpeakerResolver
